import Mathlib

/-!
Verification of the dots-and-boxes game engine in `src/server/socket.js`.

The JavaScript engine keys its `lines` map by strings of the form
`"r1-c1_r2-c2"`.  Every key ever created by `initializeGameState` is either a
horizontal edge `"r-c_r-(c+1)"` or a vertical edge `"r-c_(r+1)-c"`, and
`processMove` parses a key back into those coordinates; the string format is a
bijective encoding of the coordinates, so edges are embedded as the inductive
type `EdgeId` below.  A client string that does not parse as one of the two
shapes can never be a key of `lines`, hence behaves exactly like an unknown
`EdgeId`.  Box ids `"r-c"` are embedded as pairs.

JavaScript objects are embedded as association lists in insertion order
(`alookup` / `aset` / `aremove` below), numbers that can become `NaN` as
`Option Nat` (`none` = `NaN`), and statements that would throw a `TypeError`
(reading a property of `undefined`) as an `Option`-valued result (`none` =
throw).
-/

/-- One entry of `gameState.players` (a prisma `GamePlayer`); only `userId`
is read by the engine. -/
structure Player where
  userId : String
  deriving Repr, DecidableEq

/-- An edge key `"r1-c1_r2-c2"`: `h row col` is the horizontal line
`"row-col_row-(col+1)"`, `v row col` the vertical line `"row-col_(row+1)-col"`. -/
inductive EdgeId where
  | h (row col : Nat)
  | v (row col : Nat)
  deriving Repr, DecidableEq

/-- A value of the `lines` map: `{ drawn: false, playerId: null }` initially. -/
structure Line where
  drawn : Bool
  playerId : Option String
  deriving Repr, DecidableEq

/-- A box key `"row-col"`. -/
abbrev BoxId := Nat × Nat

/-- A value of the `boxes` map: `{ owner: null }` initially. -/
structure Box where
  owner : Option String
  deriving Repr, DecidableEq

/-- A JavaScript number that is either a natural number or `NaN` (`none`).
`scores[playerId] += n` on a missing key computes `undefined + n = NaN`. -/
abbrev JSNum := Option Nat

/-- Association-list lookup, first matching key wins (JS property read). -/
def alookup {α β : Type} [DecidableEq α] : List (α × β) → α → Option β
  | [], _ => none
  | (k, v) :: rest, key => if k = key then some v else alookup rest key

/-- Association-list write (JS property write): an existing key is updated in
place, a new key is appended at the end, matching JS object key order. -/
def aset {α β : Type} [DecidableEq α] : List (α × β) → α → β → List (α × β)
  | [], key, val => [(key, val)]
  | (k, v) :: rest, key, val =>
      if k = key then (key, val) :: rest else (k, v) :: aset rest key val

/-- Association-list delete (JS `delete obj[key]`). -/
def aremove {α β : Type} [DecidableEq α] : List (α × β) → α → List (α × β)
  | [], _ => []
  | (k, v) :: rest, key => if k = key then rest else (k, v) :: aremove rest key

/-- The in-memory game state built by `initializeGameState` (socket.js:17-56).
`createdAt` is not modelled (never read by the engine). -/
structure GameState where
  gridSize : Nat
  players : List Player
  gameId : String
  code : String
  lines : List (EdgeId × Line)
  boxes : List (BoxId × Box)
  currentPlayerIndex : Nat
  scores : List (String × JSNum)
  deriving Repr, DecidableEq

/-- The `lines` map of `initializeGameState` (socket.js:22-40): the double
`for` loop over `row < gridSize`, `col < gridSize`, inserting the horizontal
line when `col < gridSize - 1` and the vertical line when `row < gridSize - 1`. -/
def initLines (gridSize : Nat) : List (EdgeId × Line) :=
  (List.range gridSize).flatMap fun row =>
    (List.range gridSize).flatMap fun col =>
      (if col < gridSize - 1 then [(EdgeId.h row col, { drawn := false, playerId := none })] else []) ++
      (if row < gridSize - 1 then [(EdgeId.v row col, { drawn := false, playerId := none })] else [])

/-- The `boxes` map of the same loop (socket.js:35-38): a box at `(row, col)`
when `row < gridSize - 1 && col < gridSize - 1`. -/
def initBoxes (gridSize : Nat) : List (BoxId × Box) :=
  (List.range gridSize).flatMap fun row =>
    (List.range gridSize).flatMap fun col =>
      if row < gridSize - 1 ∧ col < gridSize - 1 then [((row, col), { owner := none })] else []

/-- `players.reduce((acc, player) => { acc[player.userId] = 0; return acc }, {})`
(socket.js:50-53). -/
def initScores (players : List Player) : List (String × JSNum) :=
  players.foldl (fun acc p => aset acc p.userId (some 0)) []

/-- `initializeGameState` (socket.js:17-56). -/
def initializeGameState (gridSize : Nat) (players : List Player)
    (gameId code : String) : GameState :=
  { gridSize := gridSize
    players := players
    gameId := gameId
    code := code
    lines := initLines gridSize
    boxes := initBoxes gridSize
    currentPlayerIndex := 0
    scores := initScores players }

/-- JS truthiness of a `string | null` value (`if (box.owner)`): `null` and
the empty string are falsy. -/
def jsTruthy : Option String → Bool
  | none => false
  | some s => s ≠ ""

/-- `lines[e]?.drawn` with optional chaining: `undefined` is falsy. -/
def lineDrawn (s : GameState) (e : EdgeId) : Bool :=
  match alookup s.lines e with
  | some l => l.drawn
  | none => false

/-- `checkBoxCompletion` (socket.js:126-150).  Returns `none` when the JS code
would throw (`boxes[boxId]` undefined, so `box.owner` is a TypeError); else
`some (completed, newState)`.  The four side keys are top `row-col_row-(col+1)`,
right `row-(col+1)_(row+1)-(col+1)`, bottom `(row+1)-col_(row+1)-(col+1)`,
left `row-col_(row+1)-col`. -/
def checkBoxCompletion (s : GameState) (boxId : BoxId) (playerId : String) :
    Option (Bool × GameState) :=
  match alookup s.boxes boxId with
  | none => none
  | some box =>
    if jsTruthy box.owner then some (false, s)
    else
      let row := boxId.1
      let col := boxId.2
      if lineDrawn s (.h row col) && lineDrawn s (.v row (col + 1)) &&
         lineDrawn s (.h (row + 1) col) && lineDrawn s (.v row col) then
        some (true, { s with boxes := aset s.boxes boxId { owner := some playerId } })
      else
        some (false, s)

/-- The result object of `processMove`: `{ valid: false, message }` or
`{ valid: true, boxesCompleted }`. -/
inductive MoveRes where
  | invalid (message : String)
  | valid (boxesCompleted : Nat)
  deriving Repr, DecidableEq

/-- The boxes whose completion `processMove` checks for a drawn line
(socket.js:80-113): for a horizontal line the box above (if `row1 > 0`) then
the box below (if `row1 < gridSize - 1`); for a vertical line the box to the
left (if `col1 > 0`) then the box to the right (if `col1 < gridSize - 1`). -/
def adjacentBoxChecks (gridSize : Nat) (lineId : EdgeId) : List BoxId :=
  match lineId with
  | .h row col =>
      (if 0 < row then [(row - 1, col)] else []) ++
      (if row < gridSize - 1 then [(row, col)] else [])
  | .v row col =>
      (if 0 < col then [(row, col - 1)] else []) ++
      (if col < gridSize - 1 then [(row, col)] else [])

/-- One `checkBoxCompletion` call of the sequence in socket.js:80-113,
threading the mutated state and the `boxesCompleted` counter; `none`
propagates a thrown TypeError. -/
def completionStep (playerId : String) (acc : Option (Nat × GameState))
    (boxId : BoxId) : Option (Nat × GameState) :=
  match acc with
  | none => none
  | some (n, st) =>
    match checkBoxCompletion st boxId playerId with
    | none => none
    | some (completed, st') => some (if completed then n + 1 else n, st')

/-- `scores[playerId] += boxesCompleted` (socket.js:117): a missing key reads
`undefined`, and `undefined + n` as well as `NaN + n` is `NaN`; the write
creates the key if absent. -/
def jsAddScore (scores : List (String × JSNum)) (playerId : String) (n : Nat) :
    List (String × JSNum) :=
  aset scores playerId
    (match alookup scores playerId with
     | some (some x) => some (x + n)
     | _ => none)

/-- `processMove` (socket.js:59-123).  `none` models a thrown TypeError
(`players[currentPlayerIndex]` undefined); otherwise the result and the state
after the in-place mutations. -/
def processMove (s : GameState) (lineId : EdgeId) (playerId : String) :
    Option (MoveRes × GameState) :=
  match alookup s.lines lineId with
  | none => some (.invalid "Invalid move", s)
  | some line =>
    if line.drawn then some (.invalid "Invalid move", s)
    else
      match s.players[s.currentPlayerIndex]? with
      | none => none
      | some current =>
        if current.userId ≠ playerId then some (.invalid "Not your turn", s)
        else
          match (adjacentBoxChecks s.gridSize lineId).foldl (completionStep playerId)
              (some (0, { s with
                lines := aset s.lines lineId { drawn := true, playerId := some playerId } })) with
          | none => none
          | some (boxesCompleted, s2) =>
            if 0 < boxesCompleted then
              some (.valid boxesCompleted,
                { s2 with scores := jsAddScore s2.scores playerId boxesCompleted })
            else
              some (.valid 0,
                { s2 with currentPlayerIndex := (s.currentPlayerIndex + 1) % s.players.length })

/-- `checkGameEnd` (socket.js:153-155): every line drawn. -/
def checkGameEnd (s : GameState) : Bool :=
  s.lines.all fun e => e.2.drawn

/-- The in-memory effect of the `joinGame` handler (socket.js:247-288): if the
user is not already among the game's players, a fresh player is pushed onto
`activeGames[code].players`; nothing else of the in-memory state is touched
(in particular `scores` is not). -/
def joinGame (s : GameState) (userId : String) : GameState :=
  if s.players.any (fun p => p.userId = userId) then s
  else { s with players := s.players ++ [{ userId := userId }] }

/-- One step of the winner loop of the `makeMove` handler (socket.js:339-347):
`maxScore` starts at `-1`; a `NaN` score (`none`) fails both the `>` and the
`===` comparison and leaves the accumulator unchanged. -/
def winnerStep (acc : Option String × Int × Bool) (e : String × JSNum) :
    Option String × Int × Bool :=
  match e.2 with
  | none => acc
  | some sc =>
    if (sc : Int) > acc.2.1 then (some e.1, (sc : Int), false)
    else if (sc : Int) = acc.2.1 then (acc.1, acc.2.1, true)
    else acc

/-- The winner loop of socket.js:335-347 over `Object.entries(gameState.scores)`
in insertion order: returns `(winnerId, isTie)`. -/
def computeWinner (scores : List (String × JSNum)) : Option String × Bool :=
  let r := scores.foldl winnerStep (none, -1, false)
  (r.1, r.2.2)

/-- `isTie ? null : winnerId` as emitted in `gameEnded` (socket.js:354,360). -/
def finalWinnerId (scores : List (String × JSNum)) : Option String :=
  let r := computeWinner scores
  if r.2 then none else r.1

/-- `activeGames`: the in-memory registry mapping game codes to states. -/
abbrev Registry := List (String × GameState)

/-- The externally visible outcome of one `makeMove` handler run. -/
inductive Event where
  | errorNotFound
  | invalidMove (message : String)
  | gameEnded (winnerId : Option String) (isTie : Bool) (finalScores : List (String × JSNum))
  | stateUpdated (nextPlayerId : String)
  | crash
  deriving Repr, DecidableEq

/-- The `makeMove` handler (socket.js:319-375): looks the game up in
`activeGames`, runs `processMove`, and on game end deletes the room after
computing the winner.  The database write is fire-and-forget and not modelled. -/
def handleMakeMove (reg : Registry) (code : String) (lineId : EdgeId)
    (userId : String) : Event × Registry :=
  match alookup reg code with
  | none => (.errorNotFound, reg)
  | some gs =>
    match processMove gs lineId userId with
    | none => (.crash, reg)
    | some (.invalid msg, _) => (.invalidMove msg, reg)
    | some (.valid _, gs') =>
      if checkGameEnd gs' then
        let r := computeWinner gs'.scores
        (.gameEnded (if r.2 then none else r.1) r.2 gs'.scores, aremove reg code)
      else
        match gs'.players[gs'.currentPlayerIndex]? with
        | none => (.crash, aset reg code gs')
        | some current => (.stateUpdated current.userId, aset reg code gs')

/-- The alphabet of `generateGameCode` (socket.js:8). -/
def characters : String := "ABCDEFGHJKLMNPQRSTUVWXYZ23456789"

/-- `generateGameCode` (socket.js:7-14): six draws of
`characters.charAt(Math.floor(Math.random() * characters.length))`.  The six
random draws are modelled as a list of pre-drawn natural numbers reduced
modulo the alphabet size (the JS index `floor(r * length)` lies in
`[0, length)`). -/
def generateGameCode (rands : List Nat) : String :=
  ⟨(List.range 6).map fun i =>
    characters.data.getD ((rands.getD i 0) % characters.data.length) 'A'⟩

/-- Observable for the spec invariant: the JS sum of all score values
(`NaN` absorbs). -/
def sumScores : List (String × JSNum) → JSNum
  | [] => some 0
  | (_, v) :: rest =>
    match v, sumScores rest with
    | some a, some b => some (a + b)
    | _, _ => none

/-- Observable for the spec invariant: number of boxes whose owner is set. -/
def countOwnedBoxes (s : GameState) : Nat :=
  (s.boxes.filter fun b => b.2.owner.isSome).length

/-- Runs one accepted move, `none` if the move is rejected or throws; used to
build concrete reachable states. -/
def moveStep (lineId : EdgeId) (playerId : String) (s : GameState) :
    Option GameState :=
  match processMove s lineId playerId with
  | some (.valid _, s') => some s'
  | _ => none


/-! ### Concrete reachable states

A gridSize-2 game (4 edges, 1 box) created by player `"A"` alone, then played
to completion by `"A"`: edges top, left, bottom, right of the single box. -/

def cs0 : GameState := initializeGameState 2 [{ userId := "A" }] "game0" "ROOM42"

def cs1 : GameState := (moveStep (.h 0 0) "A" cs0).getD cs0

def cs2 : GameState := (moveStep (.v 0 0) "A" cs1).getD cs1

def cs3 : GameState := (moveStep (.h 1 0) "A" cs2).getD cs2

def cs4 : GameState := (moveStep (.v 0 1) "A" cs3).getD cs3


/-! ### Association-list lemmas -/

theorem alookup_mem {α β : Type} [DecidableEq α] {l : List (α × β)} {k : α} {v : β}
    (h : alookup l k = some v) : (k, v) ∈ l := by
  induction l with
  | nil => simp [alookup] at h
  | cons e rest ih =>
    obtain ⟨k', v'⟩ := e
    by_cases hk : k' = k
    · subst hk
      simp only [alookup, if_pos trivial, eq_self_iff_true, if_true,
        Option.some.injEq] at h
      subst h
      exact List.mem_cons_self _ _
    · simp only [alookup, if_neg hk] at h
      exact List.mem_cons_of_mem _ (ih h)

theorem alookup_aremove_self {α β : Type} [DecidableEq α] {l : List (α × β)} {k : α}
    (hnd : (l.map Prod.fst).Nodup) : alookup (aremove l k) k = none := by
  induction l with
  | nil => simp [aremove, alookup]
  | cons e rest ih =>
    obtain ⟨k', v'⟩ := e
    simp only [List.map_cons, List.nodup_cons] at hnd
    by_cases hk : k' = k
    · subst hk
      simp only [aremove, eq_self_iff_true, if_true]
      cases hl : alookup rest k' with
      | none => rfl
      | some w => exact absurd (List.mem_map_of_mem Prod.fst (alookup_mem hl)) hnd.1
    · simp only [aremove, if_neg hk, alookup, if_neg hk]
      exact ih hnd.2

/-! ### Field-preservation lemmas for the box-completion pass -/

theorem checkBoxCompletion_fields {s : GameState} {b : BoxId} {pid : String}
    {r : Bool} {s' : GameState} (h : checkBoxCompletion s b pid = some (r, s')) :
    s'.gridSize = s.gridSize ∧ s'.players = s.players ∧
    s'.currentPlayerIndex = s.currentPlayerIndex ∧ s'.scores = s.scores ∧
    s'.lines = s.lines := by
  unfold checkBoxCompletion at h
  cases hb : alookup s.boxes b with
  | none => rw [hb] at h; exact absurd h (by simp)
  | some box =>
    rw [hb] at h
    by_cases ho : jsTruthy box.owner
    · simp only [ho, if_pos] at h
      obtain ⟨-, rfl⟩ := Prod.mk.injEq .. ▸ Option.some.injEq .. ▸ h
      exact ⟨rfl, rfl, rfl, rfl, rfl⟩
    · simp only [ho, Bool.false_eq_true, if_neg, if_false] at h
      split at h <;>
        · obtain ⟨-, rfl⟩ := Prod.mk.injEq .. ▸ Option.some.injEq .. ▸ h
          exact ⟨rfl, rfl, rfl, rfl, rfl⟩

theorem completionFold_none (pid : String) (checks : List BoxId) :
    checks.foldl (completionStep pid) none = none := by
  induction checks with
  | nil => rfl
  | cons b rest ih => simpa [completionStep] using ih

theorem completionFold_fields (pid : String) (checks : List BoxId) :
    ∀ (n : Nat) (st : GameState) {n' : Nat} {st' : GameState},
    checks.foldl (completionStep pid) (some (n, st)) = some (n', st') →
    st'.gridSize = st.gridSize ∧ st'.players = st.players ∧
    st'.currentPlayerIndex = st.currentPlayerIndex ∧ st'.scores = st.scores ∧
    st'.lines = st.lines := by
  induction checks with
  | nil =>
    intro n st n' st' h
    simp only [List.foldl_nil, Option.some.injEq, Prod.mk.injEq] at h
    rw [h.2]
    exact ⟨rfl, rfl, rfl, rfl, rfl⟩
  | cons b rest ih =>
    intro n st n' st' h
    rw [List.foldl_cons] at h
    cases hc : checkBoxCompletion st b pid with
    | none =>
      rw [show completionStep pid (some (n, st)) b = none by
            simp [completionStep, hc]] at h
      rw [completionFold_none] at h
      exact absurd h (by simp)
    | some res =>
      obtain ⟨completed, st1⟩ := res
      rw [show completionStep pid (some (n, st)) b
            = some (if completed then n + 1 else n, st1) by
            simp [completionStep, hc]] at h
      have h1 := ih _ _ h
      have h2 := checkBoxCompletion_fields hc
      exact ⟨h1.1.trans h2.1, h1.2.1.trans h2.2.1, h1.2.2.1.trans h2.2.2.1,
             h1.2.2.2.1.trans h2.2.2.2.1, h1.2.2.2.2.trans h2.2.2.2.2⟩

/-! ### Inversion lemmas for `processMove` -/

theorem processMove_valid_inv {s : GameState} {lid : EdgeId} {pid : String}
    {n : Nat} {s' : GameState}
    (h : processMove s lid pid = some (.valid n, s')) :
    ∃ bc s2,
      (adjacentBoxChecks s.gridSize lid).foldl (completionStep pid)
          (some (0, { s with
            lines := aset s.lines lid { drawn := true, playerId := some pid } }))
        = some (bc, s2) ∧ n = bc ∧
      ((0 < bc ∧ s' = { s2 with scores := jsAddScore s2.scores pid bc }) ∨
       (bc = 0 ∧ s' = { s2 with
          currentPlayerIndex := (s.currentPlayerIndex + 1) % s.players.length })) := by
  unfold processMove at h
  split at h
  · simp at h
  · split at h
    · simp at h
    · split at h
      · simp at h
      · split at h
        · simp at h
        · split at h
          · simp at h
          · rename_i bc s2 hfold
            split at h
            · rename_i hbc
              simp only [Option.some.injEq, Prod.mk.injEq, MoveRes.valid.injEq] at h
              obtain ⟨h1, h2⟩ := h
              exact ⟨bc, s2, hfold, h1.symm, Or.inl ⟨hbc, h2.symm⟩⟩
            · rename_i hbc
              simp only [Option.some.injEq, Prod.mk.injEq, MoveRes.valid.injEq] at h
              obtain ⟨h1, h2⟩ := h
              exact ⟨bc, s2, hfold, by omega, Or.inr ⟨by omega, h2.symm⟩⟩

theorem processMove_invalid_inv {s : GameState} {lid : EdgeId} {pid msg : String}
    {s' : GameState} (h : processMove s lid pid = some (.invalid msg, s')) :
    s' = s ∧ (msg = "Invalid move" ∨ msg = "Not your turn") := by
  unfold processMove at h
  split at h
  · simp only [Option.some.injEq, Prod.mk.injEq, MoveRes.invalid.injEq] at h
    exact ⟨h.2.symm, Or.inl h.1.symm⟩
  · split at h
    · simp only [Option.some.injEq, Prod.mk.injEq, MoveRes.invalid.injEq] at h
      exact ⟨h.2.symm, Or.inl h.1.symm⟩
    · split at h
      · simp at h
      · split at h
        · simp only [Option.some.injEq, Prod.mk.injEq, MoveRes.invalid.injEq] at h
          exact ⟨h.2.symm, Or.inr h.1.symm⟩
        · split at h
          · simp at h
          · split at h <;> simp at h

/-! ### Claim theorems -/

/-- C2: for every move accepted by `processMove`, if it completes zero boxes
then `currentPlayerIndex` advances by exactly one modulo the number of
players, and if it completes one or more boxes then `currentPlayerIndex` is
unchanged. -/
theorem processMove_turn_law (s : GameState) (lid : EdgeId) (pid : String)
    (n : Nat) (s' : GameState) (h : processMove s lid pid = some (.valid n, s')) :
    (n = 0 → s'.currentPlayerIndex = (s.currentPlayerIndex + 1) % s.players.length) ∧
    (0 < n → s'.currentPlayerIndex = s.currentPlayerIndex) := by
  obtain ⟨bc, s2, hfold, rfl, hcase⟩ := processMove_valid_inv h
  have hidx := (completionFold_fields _ _ _ _ hfold).2.2.1
  rcases hcase with ⟨hpos, rfl⟩ | ⟨rfl, rfl⟩
  · exact ⟨fun h0 => by omega, fun _ => hidx⟩
  · exact ⟨fun _ => rfl, fun h0 => absurd h0 (by omega)⟩

/-- Witness for C2: in the concrete gridSize-2 game, the second move (no box
completed) passes the turn, the fourth move (one box completed) keeps it. -/
theorem processMove_turn_law_witness :
    cs2.currentPlayerIndex = (cs1.currentPlayerIndex + 1) % cs1.players.length ∧
    cs4.currentPlayerIndex = cs3.currentPlayerIndex := by
  constructor
  · exact (processMove_turn_law cs1 (.v 0 0) "A" 0 cs2 (by decide)).1 rfl
  · exact (processMove_turn_law cs3 (.v 0 1) "A" 1 cs4 (by decide)).2 (by decide)

/-- C4: whenever `processMove` rejects a move, the returned game state is the
input state, completely unchanged. -/
theorem processMove_reject_unchanged (s : GameState) (lid : EdgeId)
    (pid msg : String) (s' : GameState)
    (h : processMove s lid pid = some (.invalid msg, s')) : s' = s :=
  (processMove_invalid_inv h).1

/-- Witness for C4: the drawn edge `0-0_0-1` of `cs1` is rejected and the
state is unchanged. -/
theorem processMove_reject_unchanged_witness :
    processMove cs1 (.h 0 0) "A" = some (.invalid "Invalid move", cs1) ∧ cs1 = cs1 :=
  ⟨by decide, processMove_reject_unchanged cs1 (.h 0 0) "A" "Invalid move" cs1 (by decide)⟩

/-- C3 (amended): `processMove` validates in the order (1) edge unknown or
already drawn, rejected with the single merged message `"Invalid move"`;
(2) requester is not the current player, rejected with `"Not your turn"`;
the first failing check wins; there is no game-active check. -/
theorem processMove_validation_order (s : GameState) (lid : EdgeId) (pid : String) :
    (alookup s.lines lid = none →
       processMove s lid pid = some (.invalid "Invalid move", s)) ∧
    (∀ line, alookup s.lines lid = some line → line.drawn = true →
       processMove s lid pid = some (.invalid "Invalid move", s)) ∧
    (∀ line current, alookup s.lines lid = some line → line.drawn = false →
       s.players[s.currentPlayerIndex]? = some current → current.userId ≠ pid →
       processMove s lid pid = some (.invalid "Not your turn", s)) := by
  refine ⟨fun hl => ?_, fun line hl hd => ?_, fun line current hl hd hp hu => ?_⟩
  · unfold processMove
    rw [hl]
  · unfold processMove
    rw [hl]
    simp [hd]
  · unfold processMove
    rw [hl]
    simp [hd, hp, hu]

/-- Counterexample for C3 as stated: an unknown edge, an already-drawn edge,
and a move on a finished game are all rejected with the same single error
message `"Invalid move"`; there are no distinct `GameNotActive`,
`UnknownEdge`, `EdgeAlreadyDrawn` kinds. -/
theorem processMove_error_kinds_counterexample :
    processMove cs0 (.h 5 5) "A" = some (.invalid "Invalid move", cs0) ∧
    processMove cs1 (.h 0 0) "A" = some (.invalid "Invalid move", cs1) ∧
    checkGameEnd cs4 = true ∧
    processMove cs4 (.h 0 0) "A" = some (.invalid "Invalid move", cs4) := by
  decide

/-- Witness for C3 (amended): both rejection branches fire on concrete
inputs. -/
theorem processMove_validation_order_witness :
    processMove cs0 (.v 5 5) "A" = some (.invalid "Invalid move", cs0) ∧
    processMove cs0 (.h 0 0) "B" = some (.invalid "Not your turn", cs0) := by
  constructor
  · exact (processMove_validation_order cs0 (.v 5 5) "A").1 (by decide)
  · exact (processMove_validation_order cs0 (.h 0 0) "B").2.2
      { drawn := false, playerId := none } { userId := "A" }
      (by decide) rfl (by decide) (by decide)

/-- C9 (amended): `generateGameCode` always returns a string of exactly 6
characters, each drawn from the fixed 32-symbol alphabet (distinct symbols,
excluding the visually ambiguous `0`, `O`, `1`, `I`). -/
theorem generateGameCode_spec (rands : List Nat) :
    (generateGameCode rands).length = 6 ∧
    (∀ c ∈ (generateGameCode rands).data, c ∈ characters.data) ∧
    characters.length = 32 ∧ characters.data.Nodup ∧
    '0' ∉ characters.data ∧ 'O' ∉ characters.data ∧
    '1' ∉ characters.data ∧ 'I' ∉ characters.data := by
  refine ⟨?_, ?_, by decide, by decide, by decide, by decide, by decide, by decide⟩
  · have hlen : (generateGameCode rands).length
        = ((List.range 6).map fun i =>
            characters.data.getD ((rands.getD i 0) % characters.data.length) 'A').length := rfl
    rw [hlen, List.length_map, List.length_range]
  · intro c hc
    have hc' : c ∈ (List.range 6).map fun i =>
        characters.data.getD ((rands.getD i 0) % characters.data.length) 'A' := hc
    rw [List.mem_map] at hc'
    obtain ⟨i, -, rfl⟩ := hc'
    have hlt : rands.getD i 0 % characters.data.length < characters.data.length :=
      Nat.mod_lt _ (by decide)
    rw [List.getD_eq_getElem _ _ hlt]
    exact List.getElem_mem hlt

/-- Counterexample for C9 as stated: the alphabet
`"ABCDEFGHJKLMNPQRSTUVWXYZ23456789"` has 32 symbols, not 33. -/
theorem generateGameCode_alphabet_counterexample :
    characters.length = 32 ∧ ¬ characters.length = 33 := by
  decide

/-! ### Rejection helper lemmas and the terminal law -/

theorem processMove_unknown (s : GameState) (lid : EdgeId) (pid : String)
    (hl : alookup s.lines lid = none) :
    processMove s lid pid = some (.invalid "Invalid move", s) := by
  unfold processMove
  rw [hl]

theorem processMove_drawn (s : GameState) (lid : EdgeId) (pid : String)
    (line : Line) (hl : alookup s.lines lid = some line) (hd : line.drawn = true) :
    processMove s lid pid = some (.invalid "Invalid move", s) := by
  unfold processMove
  rw [hl]
  simp [hd]

theorem drawn_of_checkGameEnd {s : GameState} (hend : checkGameEnd s = true)
    {lid : EdgeId} {line : Line} (hl : alookup s.lines lid = some line) :
    line.drawn = true := by
  have hmem := alookup_mem hl
  exact List.all_eq_true.mp hend (lid, line) hmem

theorem handleMakeMove_notFound (reg : Registry) (code : String) (lid : EdgeId)
    (uid : String) (h : alookup reg code = none) :
    handleMakeMove reg code lid uid = (.errorNotFound, reg) := by
  unfold handleMakeMove
  rw [h]

/-- C5 (amended): once every edge of a game is drawn, the finishing
`makeMove` deletes the game from the registry; every subsequent `makeMove`
for that code fails with the `'Game not found'` error (not a `GameNotActive`
kind), and `processMove` on the finished state never accepts any move. -/
theorem gameEnd_terminal (reg : Registry) (code : String) (lid : EdgeId)
    (uid : String) (gs : GameState) (n : Nat) (gs' : GameState)
    (hnd : (reg.map Prod.fst).Nodup)
    (hreg : alookup reg code = some gs)
    (hmv : processMove gs lid uid = some (.valid n, gs'))
    (hend : checkGameEnd gs' = true) :
    alookup (handleMakeMove reg code lid uid).2 code = none ∧
    (∀ lid2 uid2, handleMakeMove (handleMakeMove reg code lid uid).2 code lid2 uid2
        = (.errorNotFound, (handleMakeMove reg code lid uid).2)) ∧
    (∀ lid2 uid2 n2 s2, processMove gs' lid2 uid2 ≠ some (.valid n2, s2)) := by
  have p2 : (handleMakeMove reg code lid uid).2 = aremove reg code := by
    unfold handleMakeMove
    simp [hreg, hmv, hend]
  have hgone : alookup (handleMakeMove reg code lid uid).2 code = none := by
    rw [p2]
    exact alookup_aremove_self hnd
  refine ⟨hgone, fun lid2 uid2 => ?_, fun lid2 uid2 n2 s2 hcon => ?_⟩
  · rw [p2]
    exact handleMakeMove_notFound _ _ lid2 uid2 (alookup_aremove_self hnd)
  · cases hl2 : alookup gs'.lines lid2 with
    | none =>
      rw [processMove_unknown gs' lid2 uid2 hl2] at hcon
      simp at hcon
    | some line =>
      rw [processMove_drawn gs' lid2 uid2 line hl2
        (drawn_of_checkGameEnd hend hl2)] at hcon
      simp at hcon

/-- The live registry holding the concrete gridSize-2 game just before its
final move. -/
def reg0 : Registry := [("ROOM42", cs3)]

/-- Counterexample for C5 as stated: the finishing move deletes the game, and
the next `makeMove` for the code fails with the registry's `'Game not found'`
error event — not with a `GameNotActive` move rejection (the in-memory state
has no status field at all). -/
theorem gameEnd_registry_counterexample :
    handleMakeMove reg0 "ROOM42" (.v 0 1) "A"
      = (.gameEnded (some "A") false cs4.scores, []) ∧
    handleMakeMove [] "ROOM42" (.h 0 0) "A" = (.errorNotFound, []) := by
  decide

/-- Witness for C5 (amended) at the concrete finished game. -/
theorem gameEnd_terminal_witness :
    alookup (handleMakeMove reg0 "ROOM42" (.v 0 1) "A").2 "ROOM42" = none ∧
    handleMakeMove (handleMakeMove reg0 "ROOM42" (.v 0 1) "A").2 "ROOM42" (.h 0 0) "B"
      = (.errorNotFound, (handleMakeMove reg0 "ROOM42" (.v 0 1) "A").2) ∧
    processMove cs4 (.h 1 0) "B" ≠ some (.valid 2, cs0) := by
  have h := gameEnd_terminal reg0 "ROOM42" (.v 0 1) "A" cs3 1 cs4
    (by decide) (by decide) (by decide) (by decide)
  exact ⟨h.1, h.2.1 (.h 0 0) "B", h.2.2 (.h 1 0) "B" 2 cs0⟩

/-! ### The two-player game where a late joiner completes a box -/

def ds0 : GameState := initializeGameState 2 [{ userId := "A" }] "game1" "ROOM77"

def ds1 : GameState := joinGame ds0 "B"

def ds2 : GameState := (moveStep (.h 0 0) "A" ds1).getD ds1

def ds3 : GameState := (moveStep (.v 0 0) "B" ds2).getD ds2

def ds4 : GameState := (moveStep (.h 1 0) "A" ds3).getD ds3

def ds5 : GameState := (moveStep (.v 0 1) "B" ds4).getD ds4

/-- C1 (code bug): in a game created by `"A"` alone and joined by `"B"`, the
box-completing move of `"B"` is accepted, after which the sum of the scores is
`NaN` (because `scores` has no entry for `"B"` and `scores["B"] += 1` computes
`undefined + 1`) while exactly one box is owned — so the invariant
"sum of scores = number of owned boxes", which holds at initialization,
is violated in a reachable state. -/
theorem scores_invariant_violation :
    sumScores ds0.scores = some 0 ∧ countOwnedBoxes ds0 = 0 ∧
    moveStep (.h 0 0) "A" ds1 = some ds2 ∧
    moveStep (.v 0 0) "B" ds2 = some ds3 ∧
    moveStep (.h 1 0) "A" ds3 = some ds4 ∧
    moveStep (.v 0 1) "B" ds4 = some ds5 ∧
    sumScores ds5.scores = none ∧
    countOwnedBoxes ds5 = 1 := by
  decide

/-! ### Association-list write lemmas for the scores key set -/

theorem alookup_aset_self {α β : Type} [DecidableEq α] (l : List (α × β))
    (k : α) (v : β) : alookup (aset l k v) k = some v := by
  induction l with
  | nil => simp [aset, alookup]
  | cons e rest ih =>
    obtain ⟨k', v'⟩ := e
    by_cases hk : k' = k
    · simp [aset, hk, alookup]
    · simp [aset, hk, alookup, ih]

theorem aset_keys_present {α β : Type} [DecidableEq α] {l : List (α × β)}
    {k : α} {w : β} (h : alookup l k = some w) (v : β) :
    (aset l k v).map Prod.fst = l.map Prod.fst := by
  induction l with
  | nil => simp [alookup] at h
  | cons e rest ih =>
    obtain ⟨k', v'⟩ := e
    by_cases hk : k' = k
    · simp [aset, hk]
    · simp only [alookup, if_neg hk] at h
      simp [aset, hk, ih h]

theorem aset_keys_absent {α β : Type} [DecidableEq α] {l : List (α × β)}
    {k : α} (h : alookup l k = none) (v : β) :
    (aset l k v).map Prod.fst = l.map Prod.fst ++ [k] := by
  induction l with
  | nil => simp [aset]
  | cons e rest ih =>
    obtain ⟨k', v'⟩ := e
    by_cases hk : k' = k
    · rw [show alookup ((k', v') :: rest) k = some v' by simp [alookup, hk]] at h
      exact absurd h (by simp)
    · simp only [alookup, if_neg hk] at h
      simp [aset, hk, ih h]

/-- C8 (amended): the `joinGame` handler never touches the in-memory `scores`
map, and `processMove` preserves its key set except in one case: an accepted
move by a player with no `scores` entry that completes at least one box
appends an entry for that player whose value is `NaN`
(`scores[playerId] += boxesCompleted` on a missing key). -/
theorem scores_keyset_law (s : GameState) (uid : String) (lid : EdgeId)
    (pid : String) (r : MoveRes) (s' : GameState)
    (hmv : processMove s lid pid = some (r, s')) :
    (joinGame s uid).scores = s.scores ∧
    (s'.scores.map Prod.fst = s.scores.map Prod.fst ∨
     (alookup s.scores pid = none ∧
      s'.scores.map Prod.fst = s.scores.map Prod.fst ++ [pid] ∧
      alookup s'.scores pid = some none)) := by
  constructor
  · unfold joinGame
    split <;> rfl
  · cases r with
    | invalid msg =>
      rw [(processMove_invalid_inv hmv).1]
      exact Or.inl rfl
    | valid n =>
      obtain ⟨bc, s2, hfold, -, hcase⟩ := processMove_valid_inv hmv
      have hsc : s2.scores = s.scores :=
        (completionFold_fields _ _ _ _ hfold).2.2.2.1
      rcases hcase with ⟨hpos, rfl⟩ | ⟨rfl, rfl⟩
      · show (jsAddScore s2.scores pid bc).map Prod.fst = _ ∨ _
        rw [hsc]
        unfold jsAddScore
        cases hlk : alookup s.scores pid with
        | none =>
          exact Or.inr ⟨rfl, aset_keys_absent hlk _, alookup_aset_self _ _ _⟩
        | some w =>
          exact Or.inl (aset_keys_present hlk _)
      · exact Or.inl (hsc ▸ rfl)

/-- Counterexample for C8 as stated: after `"B"` (who joined after
initialization) completes a box, the `scores` key set has been extended from
`["A"]` to `["A", "B"]` — with `NaN` as the new value. -/
theorem scores_keyset_counterexample :
    ds0.scores.map Prod.fst = ["A"] ∧
    ds1.scores.map Prod.fst = ["A"] ∧
    moveStep (.v 0 1) "B" ds4 = some ds5 ∧
    ds5.scores.map Prod.fst = ["A", "B"] ∧
    alookup ds5.scores "B" = some none := by
  decide

/-- Witness for C8 (amended) at the concrete two-player game. -/
theorem scores_keyset_law_witness :
    (joinGame ds4 "X").scores = ds4.scores ∧
    (ds5.scores.map Prod.fst = ds4.scores.map Prod.fst ∨
     (alookup ds4.scores "B" = none ∧
      ds5.scores.map Prod.fst = ds4.scores.map Prod.fst ++ ["B"] ∧
      alookup ds5.scores "B" = some none)) :=
  scores_keyset_law ds4 "X" (.v 0 1) "B" (.valid 1) ds5 (by decide)

/-! ### Counting lemmas for the initial grid -/

theorem sum_map_add_nat {α : Type} (l : List α) (f g : α → Nat) :
    (l.map fun x => f x + g x).sum = (l.map f).sum + (l.map g).sum := by
  induction l with
  | nil => rfl
  | cons a t ih =>
    simp only [List.map_cons, List.sum_cons, ih]
    omega

theorem sum_map_const_nat {α : Type} (l : List α) (c : Nat) :
    (l.map fun _ => c).sum = l.length * c := by
  induction l with
  | nil => simp
  | cons a t ih =>
    simp only [List.map_cons, List.sum_cons, List.length_cons, ih]
    ring

theorem sum_map_ite_const (n k c : Nat) :
    ((List.range n).map fun i => if i < k then c else 0).sum = min n k * c := by
  induction n with
  | zero => simp
  | succ n ih =>
    rw [List.range_succ, List.map_append, List.sum_append]
    simp only [List.map_cons, List.map_nil, List.sum_cons, List.sum_nil, ih]
    by_cases h : n < k
    · rw [if_pos h, Nat.min_eq_left (by omega), Nat.min_eq_left (by omega)]
      ring
    · rw [if_neg h, Nat.min_eq_right (by omega), Nat.min_eq_right (by omega)]
      omega

theorem initLines_length (g : Nat) : (initLines g).length = 2 * g * (g - 1) := by
  unfold initLines
  rw [List.length_flatMap]
  have hmap : List.map (List.length ∘ fun row => (List.range g).flatMap fun col =>
        (if col < g - 1 then [(EdgeId.h row col, ({ drawn := false, playerId := none } : Line))] else []) ++
        (if row < g - 1 then [(EdgeId.v row col, ({ drawn := false, playerId := none } : Line))] else []))
        (List.range g)
      = (List.range g).map fun row => (g - 1) + (if row < g - 1 then g else 0) := by
    apply List.map_congr_left
    intro row hrow
    simp only [Function.comp_apply]
    rw [List.length_flatMap]
    have hinner : List.map (List.length ∘ fun col =>
          (if col < g - 1 then [(EdgeId.h row col, ({ drawn := false, playerId := none } : Line))] else []) ++
          (if row < g - 1 then [(EdgeId.v row col, ({ drawn := false, playerId := none } : Line))] else []))
          (List.range g)
        = (List.range g).map fun col =>
            (if col < g - 1 then 1 else 0) + (if row < g - 1 then 1 else 0) := by
      apply List.map_congr_left
      intro col hcol
      simp only [Function.comp_apply, List.length_append]
      congr 1 <;> split <;> rfl
    rw [hinner, sum_map_add_nat, sum_map_ite_const, sum_map_const_nat, List.length_range]
    by_cases hr : row < g - 1 <;> simp [hr]

  rw [hmap, sum_map_add_nat, sum_map_const_nat, sum_map_ite_const, List.length_range,
      Nat.min_eq_right (by omega)]
  ring

theorem initBoxes_length (g : Nat) : (initBoxes g).length = (g - 1) * (g - 1) := by
  unfold initBoxes
  rw [List.length_flatMap]
  have hmap : List.map (List.length ∘ fun row => (List.range g).flatMap fun col =>
        if row < g - 1 ∧ col < g - 1 then [((row, col), ({ owner := none } : Box))] else [])
        (List.range g)
      = (List.range g).map fun row => if row < g - 1 then g - 1 else 0 := by
    apply List.map_congr_left
    intro row hrow
    simp only [Function.comp_apply]
    rw [List.length_flatMap]
    by_cases hr : row < g - 1
    · have hinner : List.map (List.length ∘ fun col =>
            if row < g - 1 ∧ col < g - 1 then [((row, col), ({ owner := none } : Box))] else [])
            (List.range g)
          = (List.range g).map fun col => if col < g - 1 then 1 else 0 := by
        apply List.map_congr_left
        intro col hcol
        simp only [Function.comp_apply, hr, true_and]
        split <;> rfl
      rw [hinner, sum_map_ite_const, if_pos hr]
      omega
    · have hinner : List.map (List.length ∘ fun col =>
            if row < g - 1 ∧ col < g - 1 then [((row, col), ({ owner := none } : Box))] else [])
            (List.range g)
          = (List.range g).map fun _ => (0 : Nat) := by
        apply List.map_congr_left
        intro col hcol
        simp only [Function.comp_apply]
        rw [if_neg fun hc => hr hc.1]
        rfl
      rw [hinner, sum_map_const_nat, if_neg hr]
      omega
  rw [hmap, sum_map_ite_const, Nat.min_eq_right (by omega)]

/-! ### Distinctness of the generated edge and box keys -/

/-- Row coordinate of an edge key (first dot of the `"r1-c1_r2-c2"` string). -/
def edgeRow : EdgeId → Nat
  | .h r _ => r
  | .v r _ => r

/-- Column coordinate of an edge key (first dot of the string). -/
def edgeCol : EdgeId → Nat
  | .h _ c => c
  | .v _ c => c

theorem mem_initLines_entry {g row col : Nat} {x : EdgeId}
    (hx : x ∈ ((if col < g - 1 then [(EdgeId.h row col, ({ drawn := false, playerId := none } : Line))] else []) ++
               (if row < g - 1 then [(EdgeId.v row col, ({ drawn := false, playerId := none } : Line))] else [])).map Prod.fst) :
    edgeRow x = row ∧ edgeCol x = col := by
  rw [List.map_append] at hx
  rcases List.mem_append.mp hx with hm | hm <;> split at hm <;> simp at hm <;>
    subst hm <;> exact ⟨rfl, rfl⟩

theorem mem_initLines_row {g row : Nat} {x : EdgeId}
    (hx : x ∈ List.map Prod.fst ((List.range g).flatMap fun col =>
        (if col < g - 1 then [(EdgeId.h row col, ({ drawn := false, playerId := none } : Line))] else []) ++
        (if row < g - 1 then [(EdgeId.v row col, ({ drawn := false, playerId := none } : Line))] else []))) :
    edgeRow x = row := by
  rw [List.map_flatMap] at hx
  obtain ⟨col, -, hmem⟩ := List.mem_flatMap.mp hx
  exact (mem_initLines_entry hmem).1

theorem initLines_keys_nodup (g : Nat) : ((initLines g).map Prod.fst).Nodup := by
  unfold initLines
  rw [List.map_flatMap, List.nodup_flatMap]
  constructor
  · intro row hrow
    rw [List.map_flatMap, List.nodup_flatMap]
    constructor
    · intro col hcol
      by_cases h1 : col < g - 1 <;> by_cases h2 : row < g - 1 <;> simp [h1, h2]
    · refine (List.pairwise_lt_range g).imp ?_
      intro c1 c2 hlt
      intro x hx1 hx2
      have e1 := (mem_initLines_entry hx1).2
      have e2 := (mem_initLines_entry hx2).2
      omega
  · refine (List.pairwise_lt_range g).imp ?_
    intro r1 r2 hlt x hx1 hx2
    have e1 := mem_initLines_row hx1
    have e2 := mem_initLines_row hx2
    omega

theorem mem_initBoxes_entry {g row col : Nat} {x : BoxId}
    (hx : x ∈ (if row < g - 1 ∧ col < g - 1
        then [((row, col), ({ owner := none } : Box))] else []).map Prod.fst) :
    x = (row, col) := by
  split at hx <;> simp at hx
  exact hx

theorem mem_initBoxes_row {g row : Nat} {x : BoxId}
    (hx : x ∈ List.map Prod.fst ((List.range g).flatMap fun col =>
        if row < g - 1 ∧ col < g - 1
        then [((row, col), ({ owner := none } : Box))] else [])) :
    x.1 = row := by
  rw [List.map_flatMap] at hx
  obtain ⟨col, -, hmem⟩ := List.mem_flatMap.mp hx
  rw [mem_initBoxes_entry hmem]

theorem initBoxes_keys_nodup (g : Nat) : ((initBoxes g).map Prod.fst).Nodup := by
  unfold initBoxes
  rw [List.map_flatMap, List.nodup_flatMap]
  constructor
  · intro row hrow
    rw [List.map_flatMap, List.nodup_flatMap]
    constructor
    · intro col hcol
      by_cases h1 : row < g - 1 ∧ col < g - 1 <;> simp [h1]
    · refine (List.pairwise_lt_range g).imp ?_
      intro c1 c2 hlt
      intro x hx1 hx2
      have e1 := mem_initBoxes_entry hx1
      have e2 := mem_initBoxes_entry hx2
      rw [e1] at e2
      exact absurd (congrArg Prod.snd e2) (by simpa using Nat.ne_of_lt hlt)
  · refine (List.pairwise_lt_range g).imp ?_
    intro r1 r2 hlt x hx1 hx2
    have e1 := mem_initBoxes_row hx1
    have e2 := mem_initBoxes_row hx2
    omega

/-- C7: for every `gridSize ≥ 2`, the initial game state contains exactly
`2·gridSize·(gridSize-1)` edges (distinct keys) and exactly `(gridSize-1)²`
boxes (distinct keys), with every edge undrawn and unowned and every box
unowned. -/
theorem initializeGameState_counts (g : Nat) (players : List Player)
    (gid code : String) (_hg : 2 ≤ g) :
    (initializeGameState g players gid code).lines.length = 2 * g * (g - 1) ∧
    ((initializeGameState g players gid code).lines.map Prod.fst).Nodup ∧
    (initializeGameState g players gid code).boxes.length = (g - 1) * (g - 1) ∧
    ((initializeGameState g players gid code).boxes.map Prod.fst).Nodup ∧
    (∀ e ∈ (initializeGameState g players gid code).lines,
        e.2.drawn = false ∧ e.2.playerId = none) ∧
    (∀ b ∈ (initializeGameState g players gid code).boxes, b.2.owner = none) := by
  refine ⟨initLines_length g, initLines_keys_nodup g, initBoxes_length g,
    initBoxes_keys_nodup g, ?_, ?_⟩
  · intro e he
    have he' : e ∈ initLines g := he
    unfold initLines at he'
    obtain ⟨row, -, he2⟩ := List.mem_flatMap.mp he'
    obtain ⟨col, -, he3⟩ := List.mem_flatMap.mp he2
    rcases List.mem_append.mp he3 with hm | hm <;> split at hm <;> simp at hm <;>
      rw [hm]
    all_goals exact ⟨rfl, rfl⟩
  · intro b hb
    have hb' : b ∈ initBoxes g := hb
    unfold initBoxes at hb'
    obtain ⟨row, -, hb2⟩ := List.mem_flatMap.mp hb'
    obtain ⟨col, -, hb3⟩ := List.mem_flatMap.mp hb2
    split at hb3 <;> simp at hb3
    rw [hb3]

/-- Witness for C7 at `gridSize = 3`: 12 edges and 4 boxes. -/
theorem initializeGameState_counts_witness :
    (initializeGameState 3 [] "g" "c").lines.length = 2 * 3 * (3 - 1) ∧
    (initializeGameState 3 [] "g" "c").boxes.length = (3 - 1) * (3 - 1) :=
  ⟨(initializeGameState_counts 3 [] "g" "c" (by decide)).1,
   (initializeGameState_counts 3 [] "g" "c" (by decide)).2.2.1⟩

/-! ### The winner loop: characterization -/

/-- The numeric score values of `Object.entries(scores)`, as integers
(`NaN` entries are skipped by both comparisons of the loop). -/
def valsOf (l : List (String × JSNum)) : List Int :=
  l.filterMap fun e => match e.2 with
    | some v => some ((v : Int))
    | none => none

theorem mem_valsOf {l : List (String × JSNum)} {v : Int} :
    v ∈ valsOf l ↔ ∃ k n, (k, some n) ∈ l ∧ v = (n : Int) := by
  unfold valsOf
  rw [List.mem_filterMap]
  constructor
  · rintro ⟨⟨k, j⟩, hm, he⟩
    cases j with
    | none => exact absurd he (by simp)
    | some n =>
      have he' : some ((n : Int)) = some v := he
      exact ⟨k, n, hm, (Option.some.inj he').symm⟩
  · rintro ⟨k, n, hm, rfl⟩
    exact ⟨(k, some n), hm, rfl⟩

theorem foldl_max_init_le : ∀ (l : List Int) (mx : Int), mx ≤ l.foldl max mx := by
  intro l
  induction l with
  | nil => intro mx; exact le_refl mx
  | cons a rest ih =>
    intro mx
    rw [List.foldl_cons]
    exact le_trans (le_max_left mx a) (ih (max mx a))

theorem mem_le_foldl_max : ∀ (l : List Int) (mx v : Int), v ∈ l → v ≤ l.foldl max mx := by
  intro l
  induction l with
  | nil => intro mx v hv; simp at hv
  | cons a rest ih =>
    intro mx v hv
    rw [List.foldl_cons]
    rcases List.mem_cons.mp hv with rfl | hv'
    · exact le_trans (le_max_right mx v) (foldl_max_init_le rest (max mx v))
    · exact ih (max mx a) v hv'

theorem foldl_max_of_le : ∀ (l : List Int) (mx : Int), (∀ v ∈ l, v ≤ mx) →
    l.foldl max mx = mx := by
  intro l
  induction l with
  | nil => intro mx _; rfl
  | cons a rest ih =>
    intro mx hle
    rw [List.foldl_cons, max_eq_left (hle a (List.mem_cons_self a rest))]
    exact ih mx fun v hv => hle v (List.mem_cons_of_mem a hv)

theorem winnerStep_some (w : Option String) (mx : Int) (t : Bool) (k : String) (n : Nat) :
    winnerStep (w, mx, t) (k, some n)
      = if (n : Int) > mx then (some k, (n : Int), false)
        else if (n : Int) = mx then (w, mx, true) else (w, mx, t) := rfl

theorem winnerFold_lo : ∀ (l : List (String × JSNum)) (w : Option String) (mx : Int) (t : Bool),
    (∀ v ∈ valsOf l, v ≤ mx) →
    (l.foldl winnerStep (w, mx, t)).1 = w ∧
    (l.foldl winnerStep (w, mx, t)).2.1 = mx ∧
    ((l.foldl winnerStep (w, mx, t)).2.2 = true ↔ (t = true ∨ mx ∈ valsOf l)) := by
  intro l
  induction l with
  | nil =>
    intro w mx t _
    simp [valsOf]
  | cons e rest ih =>
    intro w mx t hle
    obtain ⟨k, v⟩ := e
    cases v with
    | none =>
      rw [List.foldl_cons, show winnerStep (w, mx, t) (k, none) = (w, mx, t) from rfl]
      have hvals : valsOf ((k, none) :: rest) = valsOf rest := by simp [valsOf]
      rw [hvals] at hle ⊢
      exact ih w mx t hle
    | some n =>
      rw [List.foldl_cons, winnerStep_some]
      have hvals : valsOf ((k, some n) :: rest) = (n : Int) :: valsOf rest := by
        simp [valsOf]
      have hn : (n : Int) ≤ mx := hle _ (by rw [hvals]; exact List.mem_cons_self _ _)
      have hle' : ∀ v ∈ valsOf rest, v ≤ mx := fun v hv =>
        hle v (by rw [hvals]; exact List.mem_cons_of_mem _ hv)
      rw [if_neg (by omega)]
      by_cases heq : (n : Int) = mx
      · rw [if_pos heq]
        obtain ⟨i1, i2, i3⟩ := ih w mx true hle'
        refine ⟨i1, i2, ?_⟩
        rw [i3, hvals]
        constructor
        · intro _
          exact Or.inr (List.mem_cons.mpr (Or.inl heq.symm))
        · intro _
          exact Or.inl rfl
      · rw [if_neg heq]
        obtain ⟨i1, i2, i3⟩ := ih w mx t hle'
        refine ⟨i1, i2, ?_⟩
        rw [i3, hvals]
        constructor
        · rintro (ht | hm)
          · exact Or.inl ht
          · exact Or.inr (List.mem_cons_of_mem _ hm)
        · rintro (ht | hm)
          · exact Or.inl ht
          · rcases List.mem_cons.mp hm with hmx | hm'
            · exact absurd hmx.symm heq
            · exact Or.inr hm'

theorem winnerFold_hi : ∀ (l : List (String × JSNum)) (w : Option String) (mx : Int) (t : Bool),
    (∃ v ∈ valsOf l, mx < v) →
    ∃ p m, (l.foldl winnerStep (w, mx, t)).1 = some p ∧ (p, some m) ∈ l ∧
      (m : Int) = (valsOf l).foldl max mx ∧
      (l.foldl winnerStep (w, mx, t)).2.1 = (valsOf l).foldl max mx ∧
      ((l.foldl winnerStep (w, mx, t)).2.2 = true ↔
        2 ≤ (valsOf l).count ((valsOf l).foldl max mx)) := by
  intro l
  induction l with
  | nil =>
    intro w mx t hex
    simp [valsOf] at hex
  | cons e rest ih =>
    intro w mx t hex
    obtain ⟨k, v⟩ := e
    cases v with
    | none =>
      have hvals : valsOf ((k, none) :: rest) = valsOf rest := by simp [valsOf]
      rw [List.foldl_cons, show winnerStep (w, mx, t) (k, none) = (w, mx, t) from rfl]
      rw [hvals] at hex ⊢
      obtain ⟨p, m, h1, h2, h3, h4, h5⟩ := ih w mx t hex
      exact ⟨p, m, h1, List.mem_cons_of_mem _ h2, h3, h4, h5⟩
    | some n =>
      have hvals : valsOf ((k, some n) :: rest) = (n : Int) :: valsOf rest := by
        simp [valsOf]
      rw [List.foldl_cons, winnerStep_some, hvals]
      rw [hvals] at hex
      rw [List.foldl_cons]
      by_cases hgt : mx < (n : Int)
      · rw [if_pos (by omega : (n : Int) > mx), max_eq_right (le_of_lt hgt)]
        by_cases hex2 : ∃ v ∈ valsOf rest, (n : Int) < v
        · obtain ⟨p, m, h1, h2, h3, h4, h5⟩ := ih (some k) ((n : Int)) false hex2
          have hnM : (n : Int) < (valsOf rest).foldl max ((n : Int)) := by
            obtain ⟨v0, hv0, hlt0⟩ := hex2
            have := mem_le_foldl_max (valsOf rest) ((n : Int)) v0 hv0
            omega
          refine ⟨p, m, h1, List.mem_cons_of_mem _ h2, h3, h4, ?_⟩
          rw [List.count_cons_of_ne (by omega) _]
          exact h5
        · push_neg at hex2
          obtain ⟨i1, i2, i3⟩ := winnerFold_lo rest (some k) ((n : Int)) false hex2
          have hMn : (valsOf rest).foldl max ((n : Int)) = (n : Int) :=
            foldl_max_of_le _ _ hex2
          refine ⟨k, n, i1, List.mem_cons_self _ _, hMn.symm, by rw [i2, hMn], ?_⟩
          rw [i3, hMn, List.count_cons_self]
          constructor
          · rintro (hf | hm)
            · exact absurd hf (by simp)
            · have hpos : 0 < (valsOf rest).count ((n : Int)) :=
                List.count_pos_iff.mpr hm
              omega
          · intro hc
            exact Or.inr (List.count_pos_iff.mp (by omega))
      · rw [if_neg (by omega : ¬ (n : Int) > mx), max_eq_left (by omega)]
        have hex' : ∃ v ∈ valsOf rest, mx < v := by
          obtain ⟨v0, hv0, hlt0⟩ := hex
          rcases List.mem_cons.mp hv0 with heqv | hv0'
          · exact absurd (heqv ▸ hlt0) hgt
          · exact ⟨v0, hv0', hlt0⟩
        have hnM : (n : Int) < (valsOf rest).foldl max mx := by
          obtain ⟨v0, hv0, hlt0⟩ := hex'
          have := mem_le_foldl_max (valsOf rest) mx v0 hv0
          omega
        by_cases heq : (n : Int) = mx
        · rw [if_pos heq]
          obtain ⟨p, m, h1, h2, h3, h4, h5⟩ := ih w mx true hex'
          refine ⟨p, m, h1, List.mem_cons_of_mem _ h2, h3, h4, ?_⟩
          rw [List.count_cons_of_ne (by omega) _]
          exact h5
        · rw [if_neg heq]
          obtain ⟨p, m, h1, h2, h3, h4, h5⟩ := ih w mx t hex'
          refine ⟨p, m, h1, List.mem_cons_of_mem _ h2, h3, h4, ?_⟩
          rw [List.count_cons_of_ne (by omega) _]
          exact h5

/-- C6: over any final scores map (non-empty, all entries numeric, in any
entry order), the winner loop selects a player holding the maximum score;
`isTie` is true exactly when the maximum is attained by two or more entries;
the emitted winner id is that max-holder when there is no tie and `null`
(no winner, not an error) when there is a tie; and in the no-tie case every
other score value is strictly below the winner's. -/
theorem winner_computation (scores : List (String × JSNum))
    (hne : scores ≠ [])
    (hnum : ∀ e ∈ scores, e.2.isSome) :
    ∃ p m, (computeWinner scores).1 = some p ∧ (p, some m) ∈ scores ∧
      (m : Int) = (valsOf scores).foldl max (-1) ∧
      (∀ q v, (q, some v) ∈ scores → (v : Int) ≤ (valsOf scores).foldl max (-1)) ∧
      ((computeWinner scores).2 = true ↔
        2 ≤ (valsOf scores).count ((valsOf scores).foldl max (-1))) ∧
      ((computeWinner scores).2 = false → finalWinnerId scores = some p ∧
        ∀ q v, (q, some v) ∈ scores → v ≠ m →
          (v : Int) < (valsOf scores).foldl max (-1)) ∧
      ((computeWinner scores).2 = true → finalWinnerId scores = none) := by
  have hex : ∃ v ∈ valsOf scores, (-1 : Int) < v := by
    obtain ⟨⟨k, j⟩, rest, rfl⟩ := List.exists_cons_of_ne_nil hne
    have hj := hnum (k, j) (List.mem_cons_self _ _)
    cases j with
    | none => exact absurd hj (by simp)
    | some n =>
      exact ⟨(n : Int), mem_valsOf.mpr ⟨k, n, List.mem_cons_self _ _, rfl⟩, by omega⟩
  obtain ⟨p, m, h1, h2, h3, h4, h5⟩ := winnerFold_hi scores none (-1) false hex
  have hc1 : (computeWinner scores).1 = (scores.foldl winnerStep (none, -1, false)).1 := rfl
  have hc2 : (computeWinner scores).2 = (scores.foldl winnerStep (none, -1, false)).2.2 := rfl
  have hfin : finalWinnerId scores
      = if (computeWinner scores).2 then none else (computeWinner scores).1 := rfl
  refine ⟨p, m, hc1 ▸ h1, h2, h3, ?_, ?_, ?_, ?_⟩
  · intro q v hqv
    exact mem_le_foldl_max _ _ _ (mem_valsOf.mpr ⟨q, v, hqv, rfl⟩)
  · rw [hc2]
    exact h5
  · intro hf
    constructor
    · rw [hfin, hf, if_neg (by simp), hc1]
      exact h1
    · intro q v hqv hvm
      have hle := mem_le_foldl_max (valsOf scores) (-1) _ (mem_valsOf.mpr ⟨q, v, hqv, rfl⟩)
      have hne2 : (v : Int) ≠ (m : Int) := by exact_mod_cast hvm
      omega
  · intro ht
    rw [hfin, ht, if_pos rfl]

/-- Concrete final scores with a unique maximum (for the C6 witness). -/
def wscores : List (String × JSNum) := [("A", some 2), ("B", some 1)]

/-- Witness for C6 at concrete two-entry scores. -/
theorem winner_computation_witness :
    ∃ p m, (computeWinner wscores).1 = some p ∧ (p, some m) ∈ wscores ∧
      (m : Int) = (valsOf wscores).foldl max (-1) ∧
      (∀ q v, (q, some v) ∈ wscores → (v : Int) ≤ (valsOf wscores).foldl max (-1)) ∧
      ((computeWinner wscores).2 = true ↔
        2 ≤ (valsOf wscores).count ((valsOf wscores).foldl max (-1))) ∧
      ((computeWinner wscores).2 = false → finalWinnerId wscores = some p ∧
        ∀ q v, (q, some v) ∈ wscores → v ≠ m →
          (v : Int) < (valsOf wscores).foldl max (-1)) ∧
      ((computeWinner wscores).2 = true → finalWinnerId wscores = none) :=
  winner_computation wscores (by decide) (by decide)
